import Mathlib

/-!
Verification development for the tetsuo-solana-wallet repository.

Shallow embedding of the two core modules:
  * `src/core/crypto.ts`  — password-based envelope encryption (PBKDF2 +
    AES-256-GCM), BIP39 mnemonic validation and key derivation;
  * `src/core/wallet.ts`  — the persisted wallet record store, the persisted
    configuration record, and the session facade (create / import / unlock /
    delete / set-active / list).

Modelling conventions:
  * Byte strings are `List Nat` (idealized bytes).
  * The external primitives (Node `crypto.pbkdf2Sync`, AES-256-GCM,
    `bip39`, `bs58`) are modelled as ideal deterministic functionalities:
    the PBKDF2-derived key is represented by the `(password, salt)` pair that
    determines it, the GCM authentication tag by an injective encoding of
    `(key, iv, ciphertext)` (an ideal MAC), and the keystream by a simple
    key-dependent shift.  These idealizations preserve exactly the properties
    the source relies on: determinism, invertibility with the right key, and
    tag mismatch whenever key, iv or ciphertext differ.
  * Randomness (salt, iv, entropy) is passed as an explicit argument.
  * The filesystem is an explicit state `FsState`; functions that the source
    writes through `fs.writeFileSync` additionally get a call-trace model
    (`FsCall`) where the exact write discipline (direct write vs
    write-temp-then-rename) is observable.
-/

deriving instance DecidableEq for Except

namespace Tetsuo

/-- Whether an `Except` result is a success. -/
def exceptIsOk : Except ε α → Bool
  | .ok _ => true
  | .error _ => false

/-! ## Hex / serialization utilities

The source hex-encodes byte buffers (`Buffer.toString('hex')`).  Bytes here
are unbounded `Nat`, so a byte is rendered as little-endian hex digits with a
trailing sentinel digit `'0'` (making the rendering non-empty and injective),
and a byte string is rendered as the renderings joined by `'.'`.  -/

/-- The sixteen hex digit characters. -/
def hexCharList : List Char :=
  "0123456789abcdef".data

/-- Hex digit character for a value below 16 (defaults to `'0'`). -/
def hexDigit (d : Nat) : Char :=
  if h : d < 16 then hexCharList[d] else '0'

/-- Numeric value of a hex digit character (0 for non-digits). -/
def hexVal (c : Char) : Nat :=
  (hexCharList.indexOf c) % 16

/-- Little-endian hex digits of `n`; `fuel` bounds the recursion. -/
def natToHexAux : Nat → Nat → List Char
  | 0, _ => []
  | _ + 1, 0 => []
  | fuel + 1, n + 1 => hexDigit ((n + 1) % 16) :: natToHexAux fuel ((n + 1) / 16)

/-- Hex rendering of one (unbounded) byte: little-endian digits plus a
sentinel `'0'`, so the rendering is never empty. -/
def natToHexChars (n : Nat) : List Char :=
  natToHexAux n n ++ ['0']

/-- Value of a little-endian hex digit string. -/
def hexCharsToNat : List Char → Nat
  | [] => 0
  | c :: cs => hexVal c + 16 * hexCharsToNat cs

/-- Split a character list at every occurrence of `sep`
(the semantics of `String.prototype.split`). -/
def splitSep (sep : Char) : List Char → List (List Char)
  | [] => [[]]
  | c :: rest =>
    match splitSep sep rest with
    | [] => [[c]]
    | h :: t => if c = sep then [] :: h :: t else (c :: h) :: t

/-- Join character lists with `sep` between them (`Array.prototype.join`). -/
def joinSep (sep : Char) : List (List Char) → List Char
  | [] => []
  | [p] => p
  | p :: q :: t => p ++ sep :: joinSep sep (q :: t)

/-- Rendering of a byte string: hex renderings of the bytes joined by `'.'`. -/
def natListToChars (l : List Nat) : List Char :=
  joinSep '.' (l.map natToHexChars)

/-- Parse a byte-string rendering back to the bytes. -/
def charsToNatList (cs : List Char) : List Nat :=
  if cs = [] then [] else (splitSep '.' cs).map hexCharsToNat

/-! ## Envelope cipher (`src/core/crypto.ts`, `encrypt` / `decrypt`)

The envelope is the JSON object
`{"salt": …, "iv": …, "authTag": …, "encrypted": …}` produced by
`JSON.stringify` in `encrypt` (crypto.ts:136-141) and consumed by
`JSON.parse` in `decrypt` (crypto.ts:148). -/

/-- The four-component encrypted envelope (crypto.ts:136-141). -/
structure Envelope where
  salt : List Nat
  iv : List Nat
  authTag : List Nat
  encrypted : List Nat
deriving DecidableEq, Repr

/-- Literal `{"salt":"`. -/
def litSalt : List Char := ['\x7b', '"', 's', 'a', 'l', 't', '"', ':', '"']
/-- Literal `","iv":"` preceded by the closing quote of the previous field. -/
def litIv : List Char := ['"', ',', '"', 'i', 'v', '"', ':', '"']
/-- Literal `","authTag":"` preceded by the closing quote. -/
def litTag : List Char := ['"', ',', '"', 'a', 'u', 't', 'h', 'T', 'a', 'g', '"', ':', '"']
/-- Literal `","encrypted":"` preceded by the closing quote. -/
def litEnc : List Char := ['"', ',', '"', 'e', 'n', 'c', 'r', 'y', 'p', 't', 'e', 'd', '"', ':', '"']
/-- Literal closing `"}`. -/
def litEnd : List Char := ['"', '\x7d']

/-- `JSON.stringify({salt, iv, authTag, encrypted})` with hex-rendered
fields (crypto.ts:136-141). -/
def serializeEnvelope (e : Envelope) : String :=
  String.mk (litSalt ++ natListToChars e.salt ++
             litIv ++ natListToChars e.iv ++
             litTag ++ natListToChars e.authTag ++
             litEnc ++ natListToChars e.encrypted ++ litEnd)

/-- Consume an expected literal prefix; `none` if the input does not start
with it. -/
def dropLit : List Char → List Char → Option (List Char)
  | [], rest => some rest
  | _ :: _, [] => none
  | l :: ls, c :: rest => if c = l then dropLit ls rest else none

/-- Take characters up to (not including) the next `'"'`; `none` when no
quote follows.  The quote is left in the remainder. -/
def takeUntilQuote : List Char → Option (List Char × List Char)
  | [] => none
  | c :: rest =>
    if c = '"' then some ([], c :: rest)
    else
      match takeUntilQuote rest with
      | some (f, r) => some (c :: f, r)
      | none => none

/-- `JSON.parse` of an envelope (crypto.ts:148), specialised to the exact
object shape `encrypt` emits; any other input is a parse failure (the
`SyntaxError` JSON.parse would throw). -/
def parseEnvelope (s : String) : Option Envelope := do
  let r1 ← dropLit litSalt s.data
  let (f1, r2) ← takeUntilQuote r1
  let r3 ← dropLit litIv r2
  let (f2, r4) ← takeUntilQuote r3
  let r5 ← dropLit litTag r4
  let (f3, r6) ← takeUntilQuote r5
  let r7 ← dropLit litEnc r6
  let (f4, r8) ← takeUntilQuote r7
  let r9 ← dropLit litEnd r8
  if r9 = [] then
    some { salt := charsToNatList f1, iv := charsToNatList f2,
           authTag := charsToNatList f3, encrypted := charsToNatList f4 }
  else none

/-- Ideal model of `crypto.pbkdf2Sync(password, salt, 100000, 32, 'sha256')`
(crypto.ts:128, 150-156): the derived key is determined by — and, as an ideal
KDF, uniquely determines — the `(password, salt)` pair, so it is represented
by that pair. -/
structure DerivedKey where
  password : String
  salt : List Nat
deriving DecidableEq

/-- Keystream shift of the idealized AES-256-GCM cipher: a deterministic
function of key and iv. -/
def padOf (k : DerivedKey) (iv : List Nat) : Nat :=
  (k.password.data.map Char.toNat).sum + k.salt.sum + iv.sum + 1

/-- Ideal model of the 128-bit GCM authentication tag: an ideal MAC, i.e. an
injective encoding of `(key, iv, ciphertext)` (length-prefixed so that
distinct inputs always give distinct tags; real GCM gives this except with
negligible probability). -/
def mkTag (k : DerivedKey) (iv ct : List Nat) : List Nat :=
  k.password.length :: (k.password.data.map Char.toNat ++
    (k.salt.length :: (k.salt ++ (iv.length :: (iv ++ ct)))))

/-- Ciphertext bytes of the idealized cipher: the plaintext character codes
shifted by the key/iv-determined keystream. -/
def gcmCipher (k : DerivedKey) (iv : List Nat) (data : String) : List Nat :=
  data.data.map (fun c => c.toNat + padOf k iv)

/-- `encrypt(data, password)` (crypto.ts:126-142).  The fresh random
`salt` (32 bytes) and `iv` (16 bytes) drawn from `crypto.randomBytes` are
explicit arguments of the model. -/
def encrypt (data password : String) (salt iv : List Nat) : String :=
  let key : DerivedKey := ⟨password, salt⟩
  let ct := gcmCipher key iv data
  serializeEnvelope { salt := salt, iv := iv, authTag := mkTag key iv ct, encrypted := ct }

/-- Failure modes of `decrypt`: the `SyntaxError` thrown by `JSON.parse` on a
malformed envelope, and the authentication failure thrown by
`decipher.final` on a tag mismatch. -/
inductive DecErr
  | parseError
  | authError
deriving DecidableEq, Repr

/-- `decrypt(encryptedData, password)` (crypto.ts:147-170): parse the
envelope, re-derive the key from the stored salt, verify the tag, and only
then return the plaintext. -/
def decrypt (encryptedData password : String) : Except DecErr String :=
  match parseEnvelope encryptedData with
  | none => .error .parseError
  | some env =>
    let key : DerivedKey := ⟨password, env.salt⟩
    if env.authTag = mkTag key env.iv env.encrypted then
      .ok (String.mk ((env.encrypted.map (fun b => b - padOf key env.iv)).map Char.ofNat))
    else
      .error .authError

/-! ## Mnemonics and key derivation (`src/core/crypto.ts`) -/

/-- Ed25519 keypair (crypto.ts:19-22). -/
structure KeyPair where
  publicKey : List Nat
  secretKey : List Nat
deriving DecidableEq, Repr

/-- Mnemonic + keypair + address (crypto.ts:24-28). -/
structure WalletKeys where
  mnemonic : String
  keypair : KeyPair
  address : String
deriving DecidableEq, Repr

/-- The BIP39 checksum of a word sequence, idealized as a computable
stand-in for the SHA-256-based checksum: the word character-code sum reduced
mod 16 must vanish.  As with real BIP39, checksum-valid phrases exist at
each admissible word count (any entropy of the right size encodes to one),
and most phrases fail the checksum. -/
def checksumOk (ws : List (List Char)) : Bool :=
  (ws.map (fun w => (w.map Char.toNat).sum)).sum % 16 == 0

/-- Model of `bip39.validateMnemonic` (crypto.ts:40-42).  BIP39 accepts
entropy of 128/160/192/224/256 bits, i.e. word counts 12, 15, 18, 21 and 24,
together with a valid checksum. -/
def validateMnemonic (mnemonic : String) : Bool :=
  let ws := splitSep ' ' mnemonic.data
  (decide (ws.length = 12 ∨ ws.length = 15 ∨ ws.length = 18 ∨
           ws.length = 21 ∨ ws.length = 24)) && checksumOk ws

/-- Ideal model of the seed pipeline
`bip39.mnemonicToSeedSync → derivePath("m/44'/501'/0'/0'") →
nacl.sign.keyPair.fromSeed` (crypto.ts:52-54): a deterministic injective
function of the mnemonic. -/
def derivedPublicKey (mnemonic : String) : List Nat :=
  mnemonic.data.map Char.toNat

/-- Secret half of the derived keypair (deterministic in the mnemonic). -/
def derivedSecretKey (mnemonic : String) : List Nat :=
  derivedPublicKey mnemonic ++ derivedPublicKey mnemonic

/-- Failure of `deriveKeypairFromMnemonic`: the
`Error('Invalid mnemonic phrase')` of crypto.ts:49. -/
inductive DeriveErr
  | invalidPhrase
deriving DecidableEq, Repr

/-- `deriveKeypairFromMnemonic(mnemonic)` (crypto.ts:47-60): validate, then
derive deterministically. -/
def deriveKeypairFromMnemonic (mnemonic : String) : Except DeriveErr KeyPair :=
  if validateMnemonic mnemonic then
    .ok { publicKey := derivedPublicKey mnemonic, secretKey := derivedSecretKey mnemonic }
  else
    .error .invalidPhrase

/-- `bs58.encode` (crypto.ts:65-67) modelled as an injective rendering of
the public-key bytes. -/
def publicKeyToAddress (publicKey : List Nat) : String :=
  String.mk (natListToChars publicKey)

/-- `importWallet(mnemonic)` (crypto.ts:112-121): derive the keypair (which
validates the mnemonic) and compute the address. -/
def importWallet (mnemonic : String) : Except DeriveErr WalletKeys :=
  match deriveKeypairFromMnemonic mnemonic with
  | .error e => .error e
  | .ok keypair =>
    .ok { mnemonic := mnemonic, keypair := keypair,
          address := publicKeyToAddress keypair.publicKey }

/-- Model of `bip39.generateMnemonic(256)` (crypto.ts:33-35): 24 space-free
words determined by the supplied random entropy. -/
def generateMnemonic (entropy : List Nat) : String :=
  String.mk (joinSep ' ' ((List.range 24).map (fun i => natToHexChars (entropy.getD i 0))))

/-- `generateWallet()` (crypto.ts:97-107): generate a fresh 24-word
mnemonic from the given entropy and derive keypair and address.  The
generated mnemonic is always derivable, so no failure path exists. -/
def generateWallet (entropy : List Nat) : WalletKeys :=
  let mnemonic := generateMnemonic entropy
  let keypair : KeyPair :=
    { publicKey := derivedPublicKey mnemonic, secretKey := derivedSecretKey mnemonic }
  { mnemonic := mnemonic, keypair := keypair,
    address := publicKeyToAddress keypair.publicKey }

/-! ## Wallet store and configuration (`src/core/wallet.ts`) -/

/-- Network tag (wallet.ts:29). -/
inductive Network
  | mainnet
  | devnet
  | testnet
deriving DecidableEq, Repr

/-- `StoredWallet` (wallet.ts:24-30). -/
structure StoredWallet where
  name : String
  address : String
  encryptedMnemonic : String
  createdAt : String
  network : Network
deriving DecidableEq, Repr

/-- `WalletConfig` (wallet.ts:32-37); `grokApiKey` is the optional
in-memory-only API key. -/
structure WalletConfig where
  activeWallet : Option String
  network : Network
  rpcEndpoint : String
  grokApiKey : Option String
deriving DecidableEq, Repr

/-- The shape actually persisted by `saveConfig`: every `WalletConfig`
field except `grokApiKey`, which wallet.ts:81 deletes before serializing. -/
structure SavedConfig where
  activeWallet : Option String
  network : Network
  rpcEndpoint : String
deriving DecidableEq, Repr

/-- `UnlockedWallet` (wallet.ts:39-45). -/
structure UnlockedWallet where
  wallet : StoredWallet
  mnemonic : String
  keypair : KeyPair
deriving DecidableEq, Repr

/-- `DEFAULT_CONFIG` (wallet.ts:47-51). -/
def DEFAULT_CONFIG : WalletConfig :=
  { activeWallet := none, network := .mainnet,
    rpcEndpoint := "https://api.mainnet-beta.solana.com", grokApiKey := none }

/-- The persisted filesystem state: the contents of `wallets.enc` and
`config.json` (each `none` when the file does not exist). -/
structure FsState where
  walletFile : Option (List StoredWallet)
  configFile : Option SavedConfig
deriving DecidableEq, Repr

/-- Error taxonomy of the wallet layer, mapping the `Error` messages of
wallet.ts: `already exists` (117, 155), `not found` (188, 213, 250) and
`Invalid password` (201). -/
inductive WalletErr
  | duplicateName
  | notFound
  | authError
  | invalidPhrase
deriving DecidableEq, Repr

/-- `loadConfig()` (wallet.ts:65-72): read the config file when present,
spreading it over `DEFAULT_CONFIG`; otherwise the defaults.  A file written
by `saveConfig` never carries `grokApiKey`, so the merge leaves it `none`. -/
def loadConfig (st : FsState) : WalletConfig :=
  match st.configFile with
  | some c =>
    { activeWallet := c.activeWallet, network := c.network,
      rpcEndpoint := c.rpcEndpoint, grokApiKey := none }
  | none => DEFAULT_CONFIG

/-- Strip the in-memory-only field, as the
`delete safeConfig.grokApiKey` of wallet.ts:80-81 — unconditional, whatever
the field holds. -/
def stripConfig (c : WalletConfig) : SavedConfig :=
  { activeWallet := c.activeWallet, network := c.network, rpcEndpoint := c.rpcEndpoint }

/-- `saveConfig(config)` (wallet.ts:77-83), state level: persist the
stripped record. -/
def saveConfig (st : FsState) (c : WalletConfig) : FsState :=
  { st with configFile := some (stripConfig c) }

/-- `loadWallets()` (wallet.ts:88-95): the stored list, or `[]` when the
file does not exist (first run — never an error). -/
def loadWallets (st : FsState) : List StoredWallet :=
  st.walletFile.getD []

/-- `saveWallets(wallets)` (wallet.ts:100-103), state level. -/
def saveWallets (st : FsState) (ws : List StoredWallet) : FsState :=
  { st with walletFile := some ws }

/-- `createWallet(name, password, network)` (wallet.ts:108-141).  The fresh
entropy, salt and iv of `generateWallet`/`encrypt` and the
`new Date().toISOString()` timestamp are explicit arguments.  The pair
returned is the post `FsState` (unchanged when an error is thrown) and the
result. -/
def createWallet (st : FsState) (name password : String) (network : Network)
    (entropy salt iv : List Nat) (now : String) :
    FsState × Except WalletErr (StoredWallet × String) :=
  let wallets := loadWallets st
  if wallets.any (fun w => w.name == name) then
    (st, .error .duplicateName)
  else
    let keys := generateWallet entropy
    let storedWallet : StoredWallet :=
      { name := name, address := keys.address,
        encryptedMnemonic := encrypt keys.mnemonic password salt iv,
        createdAt := now, network := network }
    let st1 := saveWallets st (wallets ++ [storedWallet])
    let config := loadConfig st1
    let st2 := saveConfig st1 { config with activeWallet := some name, network := network }
    (st2, .ok (storedWallet, keys.mnemonic))

/-- `importWalletFromMnemonic(name, mnemonic, password, network)`
(wallet.ts:146-178): duplicate check, then validation-by-derivation, then
the same persistence sequence as `createWallet`. -/
def importWalletFromMnemonic (st : FsState) (name mnemonic password : String)
    (network : Network) (salt iv : List Nat) (now : String) :
    FsState × Except WalletErr StoredWallet :=
  let wallets := loadWallets st
  if wallets.any (fun w => w.name == name) then
    (st, .error .duplicateName)
  else
    match importWallet mnemonic with
    | .error _ => (st, .error .invalidPhrase)
    | .ok keys =>
      let storedWallet : StoredWallet :=
        { name := name, address := keys.address,
          encryptedMnemonic := encrypt mnemonic password salt iv,
          createdAt := now, network := network }
      let st1 := saveWallets st (wallets ++ [storedWallet])
      let config := loadConfig st1
      let st2 := saveConfig st1 { config with activeWallet := some name, network := network }
      (st2, .ok storedWallet)

/-- `unlockWallet(name, password)` (wallet.ts:183-203): find the record
(else `not found`); then any failure inside the `try` — envelope parse
failure, tag mismatch, or mnemonic re-validation failure in `importWallet` —
is caught and rethrown as the single `Error('Invalid password')`. -/
def unlockWallet (st : FsState) (name password : String) :
    FsState × Except WalletErr UnlockedWallet :=
  let wallets := loadWallets st
  match wallets.find? (fun w => w.name == name) with
  | none => (st, .error .notFound)
  | some wallet =>
    match decrypt wallet.encryptedMnemonic password with
    | .error _ => (st, .error .authError)
    | .ok mnemonic =>
      match importWallet mnemonic with
      | .error _ => (st, .error .authError)
      | .ok keys =>
        (st, .ok { wallet := wallet, mnemonic := mnemonic, keypair := keys.keypair })

/-- `findIndex` + `splice(index, 1)` (wallet.ts:210-216): remove the first
record with the given name; `none` when no record matches. -/
def removeFirst (name : String) : List StoredWallet → Option (List StoredWallet)
  | [] => none
  | w :: rest =>
    if w.name == name then some rest
    else (removeFirst name rest).map (fun r => w :: r)

/-- `deleteWallet(name)` (wallet.ts:208-225): remove the record, save the
store, and when the deleted wallet was active reassign the active wallet to
the first remaining record (or `null`) and save the configuration. -/
def deleteWallet (st : FsState) (name : String) : FsState × Except WalletErr Unit :=
  let wallets := loadWallets st
  match removeFirst name wallets with
  | none => (st, .error .notFound)
  | some wallets' =>
    let st1 := saveWallets st wallets'
    let config := loadConfig st1
    if config.activeWallet = some name then
      (saveConfig st1 { config with activeWallet := wallets'.head?.map (fun w => w.name) }, .ok ())
    else
      (st1, .ok ())

/-- `getWallet(name)` (wallet.ts:230-233). -/
def getWallet (st : FsState) (name : String) : Option StoredWallet :=
  (loadWallets st).find? (fun w => w.name == name)

/-- `getActiveWallet()` (wallet.ts:238-242). -/
def getActiveWallet (st : FsState) : Option StoredWallet :=
  match (loadConfig st).activeWallet with
  | none => none
  | some n => getWallet st n

/-- `setActiveWallet(name)` (wallet.ts:247-256): `not found` when the store
has no such record, otherwise update and save the configuration only. -/
def setActiveWallet (st : FsState) (name : String) : FsState × Except WalletErr Unit :=
  match getWallet st name with
  | none => (st, .error .notFound)
  | some _ =>
    let config := loadConfig st
    (saveConfig st { config with activeWallet := some name }, .ok ())

/-- `listWallets()` (wallet.ts:261-268). -/
def listWallets (st : FsState) : List (String × String × Network) :=
  (loadWallets st).map (fun w => (w.name, w.address, w.network))

/-! ## Filesystem call traces

For the claims about the on-disk write discipline the state-level model is
too coarse: here the individual `fs` calls a save operation performs are
recorded, so that the presence or absence of a write-temp-then-rename
pattern, and the exact bytes written, are observable. -/

/-- `path.join(os.homedir(), '.tetsuo-solana')` (wallet.ts:20). -/
def walletDirPath (home : String) : String :=
  home ++ "/.tetsuo-solana"

/-- `WALLET_FILE` (wallet.ts:21). -/
def walletFilePath (home : String) : String :=
  walletDirPath home ++ "/wallets.enc"

/-- `CONFIG_FILE` (wallet.ts:22). -/
def configFilePath (home : String) : String :=
  walletDirPath home ++ "/config.json"

/-- A filesystem mutation call. -/
inductive FsCall
  | writeFileSync (p : String) (contents : String) (mode : Nat)
  | renameSync (src dst : String)
deriving DecidableEq, Repr

/-- Whether a call is a rename. -/
def isRename : FsCall → Bool
  | .renameSync _ _ => true
  | _ => false

/-- Serialization of one stored wallet record within
`JSON.stringify(wallets, null, 2)` (wallet.ts:102); whitespace is elided. -/
def serializeWallet (w : StoredWallet) : String :=
  "\x7b\"name\":\"" ++ w.name ++ "\",\"address\":\"" ++ w.address ++
  "\",\"encryptedMnemonic\":" ++ w.encryptedMnemonic ++
  ",\"createdAt\":\"" ++ w.createdAt ++ "\",\"network\":\"" ++
  (match w.network with
   | .mainnet => "mainnet"
   | .devnet => "devnet"
   | .testnet => "testnet") ++ "\"\x7d"

/-- Serialization helper for the wallet list. -/
def serializeWalletList : List StoredWallet → String
  | [] => ""
  | [w] => serializeWallet w
  | w :: x :: t => serializeWallet w ++ "," ++ serializeWalletList (x :: t)

/-- `JSON.stringify(wallets, null, 2)` (wallet.ts:102), whitespace elided. -/
def serializeWallets (ws : List StoredWallet) : String :=
  "[" ++ serializeWalletList ws ++ "]"

/-- `JSON.stringify(safeConfig, null, 2)` (wallet.ts:82), whitespace
elided.  `safeConfig` has no `grokApiKey` field, so none is rendered. -/
def serializeSavedConfig (c : SavedConfig) : String :=
  "\x7b\"activeWallet\":" ++
  (match c.activeWallet with
   | none => "null"
   | some n => "\"" ++ n ++ "\"") ++
  ",\"network\":\"" ++
  (match c.network with
   | .mainnet => "mainnet"
   | .devnet => "devnet"
   | .testnet => "testnet") ++
  "\",\"rpcEndpoint\":\"" ++ c.rpcEndpoint ++ "\"\x7d"

/-- The filesystem calls `saveWallets` performs (wallet.ts:100-103): one
direct `fs.writeFileSync(WALLET_FILE, json, { mode: 0o600 })` — no
temporary file, no rename. -/
def saveWalletsCalls (home : String) (ws : List StoredWallet) : List FsCall :=
  [.writeFileSync (walletFilePath home) (serializeWallets ws) 384]

/-- The filesystem calls `saveConfig` performs (wallet.ts:77-83): one
direct `fs.writeFileSync(CONFIG_FILE, json, { mode: 0o600 })` of the
stripped configuration. -/
def saveConfigCalls (home : String) (c : WalletConfig) : List FsCall :=
  [.writeFileSync (configFilePath home) (serializeSavedConfig (stripConfig c)) 384]

/-- The file contents a concurrent reader or a post-crash reader can
observe while a direct `fs.writeFileSync` replaces `old` with `new`: the old
contents before the call, and — because open-for-write truncates first and
the data is then written incrementally — every prefix of the new contents. -/
def directWriteObservable (old new : String) : List String :=
  old :: (List.range (new.length + 1)).map (fun k => String.mk (new.data.take k))

/-! ## Facade operations as a single datatype (for invariant preservation) -/

/-- The store-mutating facade operations, with their randomness and clock
inputs made explicit. -/
inductive FacadeOp
  | create (name password : String) (network : Network)
      (entropy salt iv : List Nat) (now : String)
  | imp (name mnemonic password : String) (network : Network)
      (salt iv : List Nat) (now : String)
  | del (name : String)
  | setActive (name : String)

/-- The persisted state after running a facade operation (the state is
returned unchanged when the operation throws). -/
def applyOp (st : FsState) : FacadeOp → FsState
  | .create name password network entropy salt iv now =>
    (createWallet st name password network entropy salt iv now).1
  | .imp name mnemonic password network salt iv now =>
    (importWalletFromMnemonic st name mnemonic password network salt iv now).1
  | .del name => (deleteWallet st name).1
  | .setActive name => (setActiveWallet st name).1

/-- The configuration/store coherence invariant: whenever the persisted
configuration designates an active wallet, a record with that exact name
exists in the persisted store. -/
def ActiveInv (st : FsState) : Prop :=
  ((loadConfig st).activeWallet.all
    (fun n => (loadWallets st).any (fun w => w.name == n))) = true

instance (st : FsState) : Decidable (ActiveInv st) := by
  unfold ActiveInv
  infer_instance

/-! ## Serialization round-trip lemmas -/

theorem hexVal_hexDigit : ∀ d, d < 16 → hexVal (hexDigit d) = d := by
  decide

theorem hexDigit_mem_hexCharList (d : Nat) : hexDigit d ∈ hexCharList := by
  unfold hexDigit
  split
  · exact List.getElem_mem _
  · decide

theorem hexCharsToNat_natToHexAux :
    ∀ fuel n, n ≤ fuel → hexCharsToNat (natToHexAux fuel n) = n := by
  intro fuel
  induction fuel with
  | zero =>
    intro n hn
    interval_cases n
    rfl
  | succ f ih =>
    intro n hn
    cases n with
    | zero => rfl
    | succ m =>
      have hdiv : (m + 1) / 16 ≤ f := by
        have := Nat.div_lt_self (Nat.succ_pos m) (by omega : 1 < 16)
        omega
      show hexCharsToNat (hexDigit ((m + 1) % 16) :: natToHexAux f ((m + 1) / 16)) = m + 1
      show hexVal (hexDigit ((m + 1) % 16)) + 16 * hexCharsToNat (natToHexAux f ((m + 1) / 16)) = m + 1
      rw [hexVal_hexDigit _ (Nat.mod_lt _ (by omega)), ih _ hdiv]
      omega

theorem hexCharsToNat_append_zero (l : List Char) :
    hexCharsToNat (l ++ ['0']) = hexCharsToNat l := by
  induction l with
  | nil => rfl
  | cons c cs ih =>
    show hexVal c + 16 * hexCharsToNat (cs ++ ['0']) = hexVal c + 16 * hexCharsToNat cs
    rw [ih]

theorem hexCharsToNat_natToHexChars (n : Nat) :
    hexCharsToNat (natToHexChars n) = n := by
  unfold natToHexChars
  rw [hexCharsToNat_append_zero, hexCharsToNat_natToHexAux n n le_rfl]

theorem mem_natToHexAux {c : Char} :
    ∀ fuel n, c ∈ natToHexAux fuel n → c ∈ hexCharList := by
  intro fuel
  induction fuel with
  | zero => intro n h; simp [natToHexAux] at h
  | succ f ih =>
    intro n h
    cases n with
    | zero => simp [natToHexAux] at h
    | succ m =>
      simp only [natToHexAux, List.mem_cons] at h
      rcases h with h | h
      · exact h ▸ hexDigit_mem_hexCharList _
      · exact ih _ h

theorem mem_natToHexChars {c : Char} {n : Nat} (h : c ∈ natToHexChars n) :
    c ∈ hexCharList := by
  unfold natToHexChars at h
  rcases List.mem_append.mp h with h | h
  · exact mem_natToHexAux _ _ h
  · simp at h
    subst h
    decide

theorem natToHexChars_ne_nil (n : Nat) : natToHexChars n ≠ [] := by
  unfold natToHexChars
  simp

theorem splitSep_cons (sep c : Char) (l : List Char) :
    splitSep sep (c :: l) =
      match splitSep sep l with
      | [] => [[c]]
      | h :: t => if c = sep then [] :: h :: t else (c :: h) :: t := rfl

theorem splitSep_ne_nil (sep : Char) (l : List Char) : splitSep sep l ≠ [] := by
  induction l with
  | nil => simp [splitSep]
  | cons c rest ih =>
    rw [splitSep_cons]
    rcases h : splitSep sep rest with _ | ⟨a, t⟩
    · exact absurd h ih
    · show (if c = sep then [] :: a :: t else (c :: a) :: t) ≠ []
      split <;> simp

theorem splitSep_notMem {sep : Char} :
    ∀ {a : List Char}, sep ∉ a → splitSep sep a = [a] := by
  intro a
  induction a with
  | nil => intro _; rfl
  | cons c rest ih =>
    intro h
    have hc : c ≠ sep := fun hc => h (by simp [hc])
    have hrest : sep ∉ rest := fun hr => h (by simp [hr])
    unfold splitSep
    rw [ih hrest]
    simp [hc]

theorem splitSep_append_sep {sep : Char} :
    ∀ {a : List Char} (b : List Char), sep ∉ a →
      splitSep sep (a ++ sep :: b) = a :: splitSep sep b := by
  intro a
  induction a with
  | nil =>
    intro b _
    show splitSep sep (sep :: b) = [] :: splitSep sep b
    rcases h : splitSep sep b with _ | ⟨x, t⟩
    · exact absurd h (splitSep_ne_nil sep b)
    · rw [splitSep_cons, h]
      show (if sep = sep then [] :: x :: t else (sep :: x) :: t) = [] :: x :: t
      rw [if_pos rfl]
  | cons c rest ih =>
    intro b h
    have hc : c ≠ sep := fun hc => h (by simp [hc])
    have hrest : sep ∉ rest := fun hr => h (by simp [hr])
    show splitSep sep (c :: (rest ++ sep :: b)) = (c :: rest) :: splitSep sep b
    rw [splitSep_cons, ih b hrest]
    show (if c = sep then [] :: rest :: splitSep sep b else (c :: rest) :: splitSep sep b) =
      (c :: rest) :: splitSep sep b
    rw [if_neg hc]

theorem splitSep_joinSep {sep : Char} :
    ∀ {ps : List (List Char)}, ps ≠ [] → (∀ p ∈ ps, sep ∉ p) →
      splitSep sep (joinSep sep ps) = ps := by
  intro ps
  induction ps with
  | nil => intro h; exact absurd rfl h
  | cons p t ih =>
    intro _ hmem
    cases t with
    | nil =>
      show splitSep sep p = [p]
      exact splitSep_notMem (hmem p (by simp))
    | cons q t' =>
      show splitSep sep (p ++ sep :: joinSep sep (q :: t')) = p :: (q :: t')
      rw [splitSep_append_sep _ (hmem p (by simp))]
      rw [ih (by simp) (fun x hx => hmem x (by simp [hx]))]

theorem joinSep_ne_nil {sep : Char} {p : List Char} {t : List (List Char)}
    (hp : p ≠ []) : joinSep sep (p :: t) ≠ [] := by
  cases t with
  | nil => exact hp
  | cons q t' =>
    show p ++ sep :: joinSep sep (q :: t') ≠ []
    simp

theorem charsToNatList_natListToChars (l : List Nat) :
    charsToNatList (natListToChars l) = l := by
  cases l with
  | nil => rfl
  | cons n t =>
    unfold charsToNatList natListToChars
    rw [if_neg (by simpa using joinSep_ne_nil (natToHexChars_ne_nil n))]
    rw [splitSep_joinSep (by simp) ?nodot]
    case nodot =>
      intro p hp hdot
      rcases List.mem_map.mp hp with ⟨m, _, rfl⟩
      exact absurd (mem_natToHexChars hdot) (by decide)
    rw [List.map_map]
    have : (hexCharsToNat ∘ natToHexChars) = id := by
      funext m
      exact hexCharsToNat_natToHexChars m
    rw [this, List.map_id]

theorem mem_natListToChars {c : Char} :
    ∀ {l : List Nat}, c ∈ natListToChars l → c = '.' ∨ c ∈ hexCharList := by
  intro l
  unfold natListToChars
  generalize hps : l.map natToHexChars = ps
  have hmem : ∀ p ∈ ps, ∀ x ∈ p, x ∈ hexCharList := by
    intro p hp x hx
    rcases List.mem_map.mp (hps ▸ hp) with ⟨m, _, rfl⟩
    exact mem_natToHexChars hx
  clear hps
  induction ps with
  | nil => intro h; simp [joinSep] at h
  | cons p t ih =>
    intro h
    cases t with
    | nil => exact Or.inr (hmem p (by simp) c h)
    | cons q t' =>
      have : c ∈ p ++ '.' :: joinSep '.' (q :: t') := h
      rcases List.mem_append.mp this with h' | h'
      · exact Or.inr (hmem p (by simp) c h')
      · rcases List.mem_cons.mp h' with h'' | h''
        · exact Or.inl h''
        · exact ih (fun x hx y hy => hmem x (by simp [hx]) y hy) h''

theorem quote_notMem_natListToChars {l : List Nat} : '"' ∉ natListToChars l := by
  intro h
  rcases mem_natListToChars h with h' | h' <;> exact absurd h' (by decide)

theorem dropLit_append : ∀ (lit rest : List Char), dropLit lit (lit ++ rest) = some rest := by
  intro lit
  induction lit with
  | nil => intro rest; rfl
  | cons c cs ih =>
    intro rest
    show dropLit (c :: cs) (c :: (cs ++ rest)) = some rest
    unfold dropLit
    rw [if_pos rfl]
    exact ih rest

theorem takeUntilQuote_spec :
    ∀ {a : List Char} (b : List Char), '"' ∉ a →
      takeUntilQuote (a ++ '"' :: b) = some (a, '"' :: b) := by
  intro a
  induction a with
  | nil =>
    intro b _
    show takeUntilQuote ('"' :: b) = some ([], '"' :: b)
    unfold takeUntilQuote
    rw [if_pos rfl]
  | cons c rest ih =>
    intro b h
    have hc : c ≠ '"' := fun hc => h (by simp [hc])
    have hrest : '"' ∉ rest := fun hr => h (by simp [hr])
    show takeUntilQuote (c :: (rest ++ '"' :: b)) = some (c :: rest, '"' :: b)
    unfold takeUntilQuote
    rw [if_neg hc, ih b hrest]

theorem parseEnvelope_serializeEnvelope (e : Envelope) :
    parseEnvelope (serializeEnvelope e) = some e := by
  obtain ⟨s, i, t, c⟩ := e
  simp only [serializeEnvelope, parseEnvelope, litSalt, litIv, litTag, litEnc, litEnd,
    List.cons_append, List.nil_append]
  simp [dropLit, takeUntilQuote_spec, quote_notMem_natListToChars,
    charsToNatList_natListToChars]

/-! ## Envelope cipher properties -/

theorem char_toNat_injective : Function.Injective Char.toNat := by
  intro a b hab
  rw [← Char.ofNat_toNat a, ← Char.ofNat_toNat b, hab]

theorem mkTag_password_inj {p1 p2 : String} {s iv ct : List Nat}
    (h : mkTag ⟨p1, s⟩ iv ct = mkTag ⟨p2, s⟩ iv ct) : p1 = p2 := by
  unfold mkTag at h
  rw [List.cons.injEq] at h
  obtain ⟨h1, h2⟩ := h
  have hlen : (p1.data.map Char.toNat).length = (p2.data.map Char.toNat).length := by
    simp only [List.length_map]
    exact h1
  have hmap := (List.append_inj h2 hlen).1
  have hdata : p1.data = p2.data :=
    List.map_injective_iff.mpr char_toNat_injective hmap
  cases p1
  cases p2
  exact congrArg String.mk hdata

theorem map_shift_roundtrip (cs : List Char) (P : Nat) :
    ((cs.map (fun c => c.toNat + P)).map (fun b => b - P)).map Char.ofNat = cs := by
  induction cs with
  | nil => rfl
  | cons c t ih =>
    simp only [List.map_cons, List.cons.injEq]
    exact ⟨by simp [Char.ofNat_toNat], ih⟩

/-- Claim C1: for every plaintext `T`, password `P` and randomness (salt,
iv), opening the envelope produced by sealing returns the original
plaintext: `decrypt (encrypt T P) P = T`. -/
theorem decrypt_encrypt_roundtrip (data password : String) (salt iv : List Nat) :
    decrypt (encrypt data password salt iv) password = .ok data := by
  obtain ⟨cs⟩ := data
  unfold encrypt decrypt
  rw [parseEnvelope_serializeEnvelope]
  simp only [gcmCipher]
  rw [map_shift_roundtrip]
  simp

theorem mkTag_ct_inj {k : DerivedKey} {iv ct1 ct2 : List Nat}
    (h : mkTag k iv ct1 = mkTag k iv ct2) : ct1 = ct2 := by
  unfold mkTag at h
  rw [List.cons.injEq] at h
  have h1 := List.append_cancel_left h.2
  rw [List.cons.injEq] at h1
  have h2 := List.append_cancel_left h1.2
  rw [List.cons.injEq] at h2
  exact List.append_cancel_left h2.2

/-- Claim C2 (amended): every authentication-tag mismatch fails with the
same generic authentication error — decrypting with any wrong password,
decrypting an envelope whose ciphertext field was corrupted (any value
other than the sealed ciphertext), and decrypting an envelope whose tag
field was corrupted (any value other than the genuine tag) all produce
exactly `authError`. -/
theorem decrypt_wrong_password (data p1 p2 : String) (salt iv tag2 ct2 : List Nat) :
    (p1 ≠ p2 → decrypt (encrypt data p1 salt iv) p2 = .error .authError) ∧
    (ct2 ≠ gcmCipher ⟨p1, salt⟩ iv data →
      decrypt (serializeEnvelope
        { salt := salt, iv := iv,
          authTag := mkTag ⟨p1, salt⟩ iv (gcmCipher ⟨p1, salt⟩ iv data),
          encrypted := ct2 }) p1 = .error .authError) ∧
    (tag2 ≠ mkTag ⟨p1, salt⟩ iv (gcmCipher ⟨p1, salt⟩ iv data) →
      decrypt (serializeEnvelope
        { salt := salt, iv := iv, authTag := tag2,
          encrypted := gcmCipher ⟨p1, salt⟩ iv data }) p1 = .error .authError) := by
  refine ⟨fun h => ?_, fun hct => ?_, fun htag => ?_⟩
  · have hne : ¬ (mkTag ⟨p1, salt⟩ iv (gcmCipher ⟨p1, salt⟩ iv data) =
        mkTag ⟨p2, salt⟩ iv (gcmCipher ⟨p1, salt⟩ iv data)) :=
      fun heq => h (mkTag_password_inj heq)
    unfold encrypt decrypt
    rw [parseEnvelope_serializeEnvelope]
    simp [hne]
  · have hne : ¬ (mkTag ⟨p1, salt⟩ iv (gcmCipher ⟨p1, salt⟩ iv data) =
        mkTag ⟨p1, salt⟩ iv ct2) :=
      fun heq => hct (mkTag_ct_inj heq).symm
    unfold decrypt
    rw [parseEnvelope_serializeEnvelope]
    simp [hne]
  · unfold decrypt
    rw [parseEnvelope_serializeEnvelope]
    simp [htag]

/-- Witness for `decrypt_wrong_password` at concrete inputs: a wrong
password, a corrupted ciphertext field and a corrupted tag field each
produce the authentication error. -/
theorem decrypt_wrong_password_witness :
    decrypt (encrypt "t" "a" [] []) "b" = .error .authError ∧
    decrypt (serializeEnvelope
      { salt := [], iv := [],
        authTag := mkTag ⟨"a", []⟩ [] (gcmCipher ⟨"a", []⟩ [] "t"),
        encrypted := [9] }) "a" = .error .authError ∧
    decrypt (serializeEnvelope
      { salt := [], iv := [], authTag := [9],
        encrypted := gcmCipher ⟨"a", []⟩ [] "t" }) "a" = .error .authError :=
  ⟨(decrypt_wrong_password "t" "a" "b" [] [] [9] [9]).1 (by decide),
   (decrypt_wrong_password "t" "a" "b" [] [] [9] [9]).2.1 (by decide),
   (decrypt_wrong_password "t" "a" "b" [] [] [9] [9]).2.2 (by decide)⟩

/-- Claim C2 counterexample: at the `decrypt` level the failure is not one
single generic error — a truncated envelope fails with a JSON parse error,
while a wrong password fails with the authentication error, and the two are
distinguishable. -/
theorem decrypt_failures_distinguishable :
    decrypt (String.mk ((encrypt "t" "p" [1] [2]).data.take 3)) "p" =
      .error .parseError ∧
    decrypt (encrypt "t" "p" [1] [2]) "q" = .error .authError ∧
    DecErr.parseError ≠ DecErr.authError := by
  refine ⟨by decide, by decide, by decide⟩

/-! ## Mnemonic validation properties -/

/-- Claim C4 counterexample: a checksum-valid 15-word mnemonic is accepted
by `deriveKeypairFromMnemonic` (BIP39 admits word counts 12, 15, 18, 21 and
24), so derivation does not fail for every word count other than 12 and
24. -/
theorem derive_accepts_fifteen_words :
    (splitSep ' ' ("a a a a a a a a a a a a a ac o").data).length = 15 ∧
    exceptIsOk (deriveKeypairFromMnemonic "a a a a a a a a a a a a a ac o") = true := by
  decide

/-- Claim C4 (amended): `deriveKeypairFromMnemonic` succeeds exactly on the
mnemonics accepted by BIP39 validation (word count 12, 15, 18, 21 or 24 with
a valid checksum) and fails with the invalid-phrase error otherwise. -/
theorem derive_ok_iff_valid (mnemonic : String) :
    exceptIsOk (deriveKeypairFromMnemonic mnemonic) = validateMnemonic mnemonic := by
  unfold deriveKeypairFromMnemonic
  split <;> simp_all [exceptIsOk]

/-! ## Write-discipline of the persisted store -/

/-- Claim C3: the store save is *not* atomic. `saveWallets` (and likewise
`saveConfig`) performs a single direct `fs.writeFileSync` on the final path
— no temporary file and no rename — so the write discipline required by the
claim is absent, and a reader (or a crash) during the write can observe a
state, here the bare `"["`, that is neither the old nor the new store
contents. -/
theorem saveWallets_direct_write_not_atomic :
    saveWalletsCalls "/home/u"
        [{ name := "main", address := "ad", encryptedMnemonic := "\"e\"",
           createdAt := "t0", network := .mainnet }] =
      [.writeFileSync (walletFilePath "/home/u")
        (serializeWallets
          [{ name := "main", address := "ad", encryptedMnemonic := "\"e\"",
             createdAt := "t0", network := .mainnet }]) 384] ∧
    (saveWalletsCalls "/home/u"
        [{ name := "main", address := "ad", encryptedMnemonic := "\"e\"",
           createdAt := "t0", network := .mainnet }]).all (fun c => !isRename c) = true ∧
    saveConfigCalls "/home/u" DEFAULT_CONFIG =
      [.writeFileSync (configFilePath "/home/u")
        (serializeSavedConfig (stripConfig DEFAULT_CONFIG)) 384] ∧
    (saveConfigCalls "/home/u" DEFAULT_CONFIG).all (fun c => !isRename c) = true ∧
    "[" ∈ directWriteObservable (serializeWallets [])
        (serializeWallets
          [{ name := "main", address := "ad", encryptedMnemonic := "\"e\"",
             createdAt := "t0", network := .mainnet }]) ∧
    "[" ≠ serializeWallets [] ∧
    "[" ≠ serializeWallets
        [{ name := "main", address := "ad", encryptedMnemonic := "\"e\"",
           createdAt := "t0", network := .mainnet }] := by
  refine ⟨rfl, rfl, rfl, rfl, ?_, by decide, by decide⟩
  show "[" ∈ directWriteObservable "[]" _
  simp only [directWriteObservable, List.mem_cons]
  right
  have : ("[" : String) = String.mk ((serializeWallets
      [{ name := "main", address := "ad", encryptedMnemonic := "\"e\"",
         createdAt := "t0", network := .mainnet }]).data.take 1) := by decide
  rw [this]
  exact List.mem_map_of_mem _ (by decide)

/-! ## Store state lemmas -/

theorem loadConfig_saveWallets (st : FsState) (ws : List StoredWallet) :
    loadConfig (saveWallets st ws) = loadConfig st := rfl

theorem loadWallets_saveConfig (st : FsState) (c : WalletConfig) :
    loadWallets (saveConfig st c) = loadWallets st := rfl

theorem loadWallets_saveWallets (st : FsState) (ws : List StoredWallet) :
    loadWallets (saveWallets st ws) = ws := rfl

theorem loadConfig_saveConfig (st : FsState) (c : WalletConfig) :
    loadConfig (saveConfig st c) =
      { activeWallet := c.activeWallet, network := c.network,
        rpcEndpoint := c.rpcEndpoint, grokApiKey := none } := rfl

theorem removeFirst_isSome {name : String} :
    ∀ {ws : List StoredWallet}, ws.any (fun w => w.name == name) = true →
      ∃ r, removeFirst name ws = some r := by
  intro ws
  induction ws with
  | nil => intro h; simp at h
  | cons w rest ih =>
    intro h
    unfold removeFirst
    by_cases hw : w.name == name
    · exact ⟨rest, by rw [if_pos hw]⟩
    · rw [List.any_cons] at h
      simp only [hw, Bool.false_or] at h
      obtain ⟨r, hr⟩ := ih h
      exact ⟨w :: r, by rw [if_neg hw, hr]; rfl⟩

theorem removeFirst_filter {name : String} :
    ∀ {ws : List StoredWallet} {r : List StoredWallet},
      ((ws.map (fun w => w.name)).Nodup) → removeFirst name ws = some r →
      r = ws.filter (fun w => !(w.name == name)) := by
  intro ws
  induction ws with
  | nil => intro r _ h; simp [removeFirst] at h
  | cons w rest ih =>
    intro r hnd h
    simp only [List.map_cons, List.nodup_cons] at hnd
    obtain ⟨hw, hrest⟩ := hnd
    unfold removeFirst at h
    by_cases hmatch : w.name == name
    · rw [if_pos hmatch] at h
      obtain rfl : rest = r := by injection h
      have hname : w.name = name := by simpa using hmatch
      rw [List.filter_cons_of_neg (by simp [hmatch])]
      symm
      apply List.filter_eq_self.mpr
      intro x hx
      have : x.name ≠ w.name := fun hxw => hw (hxw ▸ List.mem_map_of_mem _ hx)
      simp [hname ▸ this]
    · rw [if_neg hmatch] at h
      rcases hrec : removeFirst name rest with _ | r'
      · rw [hrec] at h
        exact Option.noConfusion h
      · rw [hrec] at h
        simp only [Option.map_some'] at h
        obtain rfl : w :: r' = r := by injection h
        rw [List.filter_cons_of_pos (by simp [hmatch])]
        rw [ih hrest hrec]

theorem removeFirst_any_preserve {name m : String} (hm : m ≠ name) :
    ∀ {ws r : List StoredWallet}, removeFirst name ws = some r →
      ws.any (fun w => w.name == m) = true → r.any (fun w => w.name == m) = true := by
  intro ws
  induction ws with
  | nil => intro r h; simp [removeFirst] at h
  | cons w rest ih =>
    intro r h hany
    unfold removeFirst at h
    by_cases hmatch : w.name == name
    · rw [if_pos hmatch] at h
      obtain rfl : rest = r := by injection h
      rw [List.any_cons] at hany
      have hwm : (w.name == m) = false := by
        have hwn : w.name = name := by simpa using hmatch
        simp only [hwn, beq_eq_false_iff_ne]
        exact fun hx => hm hx.symm
      rw [hwm, Bool.false_or] at hany
      exact hany
    · rw [if_neg hmatch] at h
      rcases hrec : removeFirst name rest with _ | r'
      · rw [hrec] at h
        exact Option.noConfusion h
      · rw [hrec] at h
        simp only [Option.map_some'] at h
        obtain rfl : w :: r' = r := by injection h
        rw [List.any_cons] at hany ⊢
        rcases Bool.or_eq_true_iff.mp hany with h' | h'
        · rw [h']; rfl
        · rw [ih hrec h', Bool.or_true]


/-! ## Facade properties -/

/-- Claim C5: when a record with the given name already exists, both
`createWallet` and `importWalletFromMnemonic` fail with the duplicate-name
error, the duplicate check precedes any write, and the persisted state is
returned unchanged. -/
theorem duplicate_name_rejected_store_unchanged
    (st : FsState) (name password mnemonic now : String) (network : Network)
    (entropy salt iv : List Nat)
    (h : (loadWallets st).any (fun w => w.name == name) = true) :
    createWallet st name password network entropy salt iv now =
      (st, .error .duplicateName) ∧
    importWalletFromMnemonic st name mnemonic password network salt iv now =
      (st, .error .duplicateName) := by
  constructor
  · simp [createWallet, h]
  · simp [importWalletFromMnemonic, h]

/-- Witness for `duplicate_name_rejected_store_unchanged`: a store holding a
wallet named `main` rejects a second `main`. -/
theorem duplicate_name_rejected_witness :
    createWallet
        ⟨some [{ name := "main", address := "ad", encryptedMnemonic := "e",
                 createdAt := "t0", network := .mainnet }], none⟩
        "main" "pw" .mainnet [] [] [] "t1" =
      (⟨some [{ name := "main", address := "ad", encryptedMnemonic := "e",
                createdAt := "t0", network := .mainnet }], none⟩,
       .error .duplicateName) ∧
    importWalletFromMnemonic
        ⟨some [{ name := "main", address := "ad", encryptedMnemonic := "e",
                 createdAt := "t0", network := .mainnet }], none⟩
        "main" "mn" "pw" .mainnet [] [] "t1" =
      (⟨some [{ name := "main", address := "ad", encryptedMnemonic := "e",
                createdAt := "t0", network := .mainnet }], none⟩,
       .error .duplicateName) :=
  duplicate_name_rejected_store_unchanged _ "main" "pw" "mn" "t1" .mainnet [] [] []
    (by decide)

/-- Claim C6: deleting an existing wallet removes exactly that record; when
it was the active wallet, the active selection is reassigned to the first
remaining record (or to none) and the configuration is saved; otherwise the
configuration file is untouched. -/
theorem deleteWallet_spec (st : FsState) (name : String)
    (hex : (loadWallets st).any (fun w => w.name == name) = true)
    (hnd : ((loadWallets st).map (fun w => w.name)).Nodup) :
    (deleteWallet st name).2 = .ok () ∧
    loadWallets (deleteWallet st name).1 =
      (loadWallets st).filter (fun w => !(w.name == name)) ∧
    ((loadConfig st).activeWallet = some name →
      (loadConfig (deleteWallet st name).1).activeWallet =
        (((loadWallets st).filter (fun w => !(w.name == name))).head?).map
          (fun w => w.name)) ∧
    ((loadConfig st).activeWallet ≠ some name →
      (deleteWallet st name).1.configFile = st.configFile) := by
  obtain ⟨r, hr⟩ := removeFirst_isSome hex
  have hfil := removeFirst_filter hnd hr
  subst hfil
  by_cases hc : (loadConfig st).activeWallet = some name
  · simp only [deleteWallet, hr]
    rw [loadConfig_saveWallets, if_pos hc]
    exact ⟨rfl, rfl, fun _ => rfl, fun habs => absurd hc habs⟩
  · simp only [deleteWallet, hr]
    rw [loadConfig_saveWallets, if_neg hc]
    exact ⟨rfl, rfl, fun habs => absurd habs hc, fun _ => rfl⟩

/-- Witness for `deleteWallet_spec`: with wallets A and B and A active,
deleting A leaves B as the active wallet. -/
theorem deleteWallet_spec_witness :
    (deleteWallet
        ⟨some [{ name := "A", address := "a1", encryptedMnemonic := "e1",
                 createdAt := "t", network := .mainnet },
               { name := "B", address := "a2", encryptedMnemonic := "e2",
                 createdAt := "t", network := .mainnet }],
         some { activeWallet := some "A", network := .mainnet, rpcEndpoint := "r" }⟩
        "A").2 = .ok () ∧
    (loadConfig (deleteWallet
        ⟨some [{ name := "A", address := "a1", encryptedMnemonic := "e1",
                 createdAt := "t", network := .mainnet },
               { name := "B", address := "a2", encryptedMnemonic := "e2",
                 createdAt := "t", network := .mainnet }],
         some { activeWallet := some "A", network := .mainnet, rpcEndpoint := "r" }⟩
        "A").1).activeWallet = some "B" := by
  have h := deleteWallet_spec
    ⟨some [{ name := "A", address := "a1", encryptedMnemonic := "e1",
             createdAt := "t", network := .mainnet },
           { name := "B", address := "a2", encryptedMnemonic := "e2",
             createdAt := "t", network := .mainnet }],
     some { activeWallet := some "A", network := .mainnet, rpcEndpoint := "r" }⟩
    "A" (by decide) (by decide)
  refine ⟨h.1, ?_⟩
  rw [h.2.2.1 (by decide)]
  decide

/-- Claim C7: every store-mutating facade operation (create, import,
delete, set-active) preserves the invariant that a set active-wallet name
always denotes an existing record. -/
theorem facade_preserves_active_inv (st : FsState) (op : FacadeOp)
    (h : ActiveInv st) : ActiveInv (applyOp st op) := by
  cases op with
  | create name password network entropy salt iv now =>
    by_cases hdup : (loadWallets st).any (fun w => w.name == name) = true
    · simpa [applyOp, createWallet, hdup] using h
    · simp only [Bool.not_eq_true] at hdup
      unfold ActiveInv
      simp [applyOp, createWallet, hdup, loadConfig_saveConfig,
        loadWallets_saveConfig, loadWallets_saveWallets]
  | imp name mnemonic password network salt iv now =>
    by_cases hdup : (loadWallets st).any (fun w => w.name == name) = true
    · simpa [applyOp, importWalletFromMnemonic, hdup] using h
    · simp only [Bool.not_eq_true] at hdup
      rcases himp : importWallet mnemonic with e | keys
      · simpa [applyOp, importWalletFromMnemonic, hdup, himp] using h
      · unfold ActiveInv
        simp [applyOp, importWalletFromMnemonic, hdup, himp, loadConfig_saveConfig,
          loadWallets_saveConfig, loadWallets_saveWallets]
  | del name =>
    rcases hr : removeFirst name (loadWallets st) with _ | r
    · simpa [applyOp, deleteWallet, hr] using h
    · by_cases hc : (loadConfig st).activeWallet = some name
      · unfold ActiveInv
        simp only [applyOp, deleteWallet, hr]
        rw [loadConfig_saveWallets, if_pos hc]
        simp only [loadConfig_saveConfig, loadWallets_saveConfig, loadWallets_saveWallets]
        cases r with
        | nil => rfl
        | cons w0 t => simp
      · unfold ActiveInv
        simp only [applyOp, deleteWallet, hr]
        rw [loadConfig_saveWallets, if_neg hc]
        simp only [loadConfig_saveWallets, loadWallets_saveWallets]
        rcases hact : (loadConfig st).activeWallet with _ | m
        · rfl
        · have hm : m ≠ name := fun heq => hc (by rw [hact, heq])
          have hany : (loadWallets st).any (fun w => w.name == m) = true := by
            have hinv := h
            unfold ActiveInv at hinv
            rw [hact] at hinv
            simpa using hinv
          simpa using removeFirst_any_preserve hm hr hany
  | setActive name =>
    rcases hg : getWallet st name with _ | w
    · simpa [applyOp, setActiveWallet, hg] using h
    · unfold ActiveInv
      simp only [applyOp, setActiveWallet, hg, loadConfig_saveConfig,
        loadWallets_saveConfig]
      have hmem := List.mem_of_find?_eq_some hg
      have hpred := List.find?_some hg
      simp only [Option.all_some]
      exact List.any_eq_true.mpr ⟨w, hmem, hpred⟩

/-- Witness for `facade_preserves_active_inv`: the invariant holds of the
empty first-run state and is preserved by a (failing) delete. -/
theorem facade_preserves_active_inv_witness :
    ActiveInv ⟨none, none⟩ ∧ ActiveInv (applyOp ⟨none, none⟩ (FacadeOp.del "x")) :=
  ⟨by decide, facade_preserves_active_inv ⟨none, none⟩ (FacadeOp.del "x") (by decide)⟩

/-- Claim C9: `unlockWallet` never writes — the persisted state after the
call (success, not-found, or authentication failure alike) is exactly the
state before it. -/
theorem unlockWallet_no_write (st : FsState) (name password : String) :
    (unlockWallet st name password).1 = st := by
  simp only [unlockWallet]
  split
  · rfl
  · split
    · rfl
    · split
      · rfl
      · rfl

/-- Claim C10: every failure of `unlockWallet` is either the not-found
error — exactly when no record with the requested name exists — or the one
generic authentication error covering every post-lookup failure (malformed
envelope, tag mismatch, or re-derivation failure). -/
theorem unlock_error_classification (st : FsState) (name password : String)
    (e : WalletErr) (h : (unlockWallet st name password).2 = .error e) :
    (e = .notFound ∧ (loadWallets st).find? (fun w => w.name == name) = none) ∨
    (e = .authError ∧
      ((loadWallets st).find? (fun w => w.name == name)).isSome = true) := by
  simp only [unlockWallet] at h
  split at h
  · rename_i hfind
    left
    refine ⟨?_, hfind⟩
    have h' : Except.error (ε := WalletErr) (α := UnlockedWallet) .notFound =
        .error e := h
    injection h' with h''
    exact h''.symm
  · rename_i wallet hfind
    split at h
    · right
      have h' : Except.error (ε := WalletErr) (α := UnlockedWallet) .authError =
          .error e := h
      injection h' with h''
      exact ⟨h''.symm, by rw [hfind]; rfl⟩
    · split at h
      · right
        have h' : Except.error (ε := WalletErr) (α := UnlockedWallet) .authError =
            .error e := h
        injection h' with h''
        exact ⟨h''.symm, by rw [hfind]; rfl⟩
      · simp at h

/-- Witness for `unlock_error_classification`: a store whose envelope is
malformed still reports the generic authentication error on unlock. -/
theorem unlock_error_classification_witness :
    (WalletErr.authError = .notFound ∧
      (loadWallets
        ⟨some [{ name := "main", address := "ad", encryptedMnemonic := "xx",
                 createdAt := "t0", network := .mainnet }],
         none⟩).find? (fun w => w.name == "main") = none) ∨
    (WalletErr.authError = .authError ∧
      ((loadWallets
        ⟨some [{ name := "main", address := "ad", encryptedMnemonic := "xx",
                 createdAt := "t0", network := .mainnet }],
         none⟩).find? (fun w => w.name == "main")).isSome = true) :=
  unlock_error_classification
    ⟨some [{ name := "main", address := "ad", encryptedMnemonic := "xx",
             createdAt := "t0", network := .mainnet }], none⟩
    "main" "pw" .authError (by decide)

/-- Claim C8: saving the configuration strips the in-memory-only API-key
field unconditionally — both the persisted state and the exact bytes written
are identical for any two configurations that differ only in that field,
whatever its value. -/
theorem saveConfig_strips_api_key (st : FsState) (home : String)
    (c : WalletConfig) (k1 k2 : Option String) :
    saveConfig st { c with grokApiKey := k1 } =
      saveConfig st { c with grokApiKey := k2 } ∧
    saveConfigCalls home { c with grokApiKey := k1 } =
      saveConfigCalls home { c with grokApiKey := k2 } :=
  ⟨rfl, rfl⟩

end Tetsuo
